import Mathlib

/-!
Verification development for the `ggez_inputty` input-mapping layer.

The embedding below translates the two core modules:

* `src/virtual_axis.rs` — the virtual-axis state machine (`axis_update`,
  `axis_input_analog`, `axis_input_pos`, `axis_input_neg`).  Scalar values
  (`f32` in the source) are modelled as exact rationals `ℚ`; the raw analog
  payload (`i16` in the source) is modelled as `Int`, with the 16-bit range
  `[-32768, 32767]` imposed as an explicit hypothesis where it matters.

* `src/input_handler.rs` — the binding/definition tables and the queued
  dispatcher (`InputHandler` with `define`, `bind`, `update` and the
  event-adapter entry points).  Rust `HashMap`s are modelled as association
  lists (the source only performs keyed lookup and insert, never iteration,
  so the model is observation-equivalent); `VecDeque` is a `List` used at the
  front and back; callbacks returning `GameResult<()>` while mutating `&mut
  State` are modelled as `State → Except E State`.  `update` additionally
  returns the ordered trace of callback invocations so that dispatch-order
  properties can be stated.
-/

namespace Inputty

/-! ### External SDL2 identifier types

`ggez::event` re-exports SDL2 identifier enums.  Their internal structure is
irrelevant to the handler (they are only hashed and compared), so each is
modelled as a wrapped `Nat` tag with decidable equality. -/

structure Keycode where
  code : Nat
deriving DecidableEq

structure Axis where
  id : Nat
deriving DecidableEq

structure Button where
  id : Nat
deriving DecidableEq

structure MouseButton where
  id : Nat
deriving DecidableEq

/-- Model of `ggez::event::Mod` (keyboard modifiers): ignored by every handler method. -/
abbrev KeyMod := Unit

/-- Model of `ggez::event::MouseState`: ignored by `mouse_motion_event`. -/
abbrev MouseState := Unit

/-! ### Virtual axis (src/virtual_axis.rs) -/

/-- Phases of the virtual axis state machine (`VirtualAxisPhase`). -/
inductive VirtualAxisPhase where
  | Increase
  | Decrease
  | Relax
  | Ignore
deriving DecidableEq

/-- The shape of `PhysicalInputValue` as matched by `src/virtual_axis.rs`
(that file pattern-matches a single-payload `Axis`/`Button` variant). -/
inductive AxisInputValue where
  | Axis (raw : Int)
  | Button (raw : Bool)
deriving DecidableEq

/-- Model of `nalgebra::clamp(val, min, max)`: `min` if below, `max` if above,
otherwise `val` itself. -/
def clamp (val min max : ℚ) : ℚ :=
  if val < min then min else if val > max then max else val

/-- Model of `axis_update` from src/virtual_axis.rs lines 129-164: one per-tick step of
the virtual axis, returning the new value (the source writes it back through
`&mut f32`). -/
def axis_update (axis_value : ℚ) (axis_state : VirtualAxisPhase)
    (delta delta_reverse delta_relax : ℚ) : ℚ :=
  let val : ℚ :=
    match axis_state with
    | .Relax =>
        if axis_value > delta_relax then axis_value - delta_relax
        else if axis_value < -delta_relax then axis_value + delta_relax
        else 0
    | .Increase =>
        if axis_value > 0 then axis_value + delta else axis_value + delta_reverse
    | .Decrease =>
        if axis_value < 0 then axis_value - delta else axis_value - delta_reverse
    | .Ignore => axis_value
  clamp val (-1) 1

/-- Model of `axis_input_analog` from src/virtual_axis.rs lines 166-176: on an `Axis`
payload, set the phase to `Ignore` and the value to `raw / i16::max_value()`;
any other payload leaves both untouched.  Returns the new (value, phase)
pair; the `Ok(())` result of the source is omitted as it is unconditional. -/
def axis_input_analog (axis_value : ℚ) (axis_state : VirtualAxisPhase)
    (value : AxisInputValue) : ℚ × VirtualAxisPhase :=
  match value with
  | .Axis raw => ((raw : ℚ) / 32767, .Ignore)
  | _ => (axis_value, axis_state)

/-- Model of `axis_input_pos` from src/virtual_axis.rs lines 178-190: positive digital
input; down forces `Increase`, up relaxes unless the opposing `Decrease` is
active. -/
def axis_input_pos (axis_state : VirtualAxisPhase) (value : AxisInputValue) :
    VirtualAxisPhase :=
  match value with
  | .Button raw_button =>
      if raw_button then .Increase
      else if axis_state ≠ .Decrease then .Relax
      else axis_state
  | _ => axis_state

/-- Model of `axis_input_neg` from src/virtual_axis.rs lines 192-204: negative digital
input; down forces `Decrease`, up relaxes unless the opposing `Increase` is
active. -/
def axis_input_neg (axis_state : VirtualAxisPhase) (value : AxisInputValue) :
    VirtualAxisPhase :=
  match value with
  | .Button raw_button =>
      if raw_button then .Decrease
      else if axis_state ≠ .Increase then .Relax
      else axis_state
  | _ => axis_state

/-! One whole-state view of the virtual axis, for stating invariants over
arbitrary operation sequences (`VirtualAxisState` with its four entry
points; the three configured rates enter through the per-tick deltas). -/

/-- The mutable part of `VirtualAxisState`: current value and phase. -/
structure AxisState where
  value : ℚ
  phase : VirtualAxisPhase
deriving DecidableEq

/-- Model of `VirtualAxisState::new`: value 0.0, phase Ignore. -/
def AxisState.init : AxisState := ⟨0, .Ignore⟩

/-- One externally triggered operation on a virtual axis: an analog event
carrying a raw `i16`, a positive/negative digital event, or a per-tick
update with its three effective deltas. -/
inductive AxisOp where
  | analog (raw : Int)
  | pos (down : Bool)
  | neg (down : Bool)
  | tick (delta delta_reverse delta_relax : ℚ)
deriving DecidableEq

/-- Apply one operation to the axis state, exactly as `VirtualAxisState`
routes it to `axis_input_analog` / `axis_input_pos` / `axis_input_neg` /
`axis_update`. -/
def AxisState.step (st : AxisState) : AxisOp → AxisState
  | .analog raw =>
      let r := axis_input_analog st.value st.phase (.Axis raw)
      ⟨r.1, r.2⟩
  | .pos down => ⟨st.value, axis_input_pos st.phase (.Button down)⟩
  | .neg down => ⟨st.value, axis_input_neg st.phase (.Button down)⟩
  | .tick d dr drel => ⟨axis_update st.value st.phase d dr drel, st.phase⟩

/-- Run a sequence of operations from a starting state. -/
def AxisState.run (st : AxisState) (ops : List AxisOp) : AxisState :=
  ops.foldl AxisState.step st

/-- Validity of one operation, as quantified by the spec: analog payloads
are `i16` values; tick deltas come from a non-negative delta
configuration. -/
def AxisOp.valid : AxisOp → Prop
  | .analog raw => -32768 ≤ raw ∧ raw ≤ 32767
  | .pos _ => True
  | .neg _ => True
  | .tick d dr drel => 0 ≤ d ∧ 0 ≤ dr ∧ 0 ≤ drel

instance : DecidablePred AxisOp.valid := by
  intro op
  cases op <;> unfold AxisOp.valid <;> infer_instance

/-- The reference per-tick step, written from the spec's words (section 4.3
"Per-tick update"): Relax decays toward 0 by `delta_relax`, snapping to
exactly 0 when `|value| ≤ delta_relax`; Increase adds `delta` when the value
is positive and `delta_reverse` otherwise; Decrease is symmetric; Ignore
leaves the value; the result is clamped to [-1, 1] regardless of phase. -/
def axis_update_spec (axis_value : ℚ) (axis_state : VirtualAxisPhase)
    (delta delta_reverse delta_relax : ℚ) : ℚ :=
  let val : ℚ :=
    match axis_state with
    | .Relax =>
        if |axis_value| ≤ delta_relax then 0
        else if axis_value > 0 then axis_value - delta_relax
        else axis_value + delta_relax
    | .Increase =>
        if axis_value > 0 then axis_value + delta else axis_value + delta_reverse
    | .Decrease =>
        if axis_value < 0 then axis_value - delta else axis_value - delta_reverse
    | .Ignore => axis_value
  clamp val (-1) 1


/-! ### Input handler (src/input_handler.rs) -/

/-- Model of `PhysicalInput` from src/input_handler.rs lines 7-17: identity of a
hardware signal source, used as the binding-table key. -/
inductive PhysicalInput where
  | CAxis (a : Axis)
  | CButton (b : Button)
  | MButton (m : MouseButton)
  | MWheelX (positive : Bool)
  | MWheelY (positive : Bool)
  | MMotion
  | Key (k : Keycode) (repeated : Bool)
deriving DecidableEq

/-- Model of `PhysicalInputValue` from src/input_handler.rs lines 20-29: the payload
accompanying an event.  `i16`/`i32` fields are modelled as `Int`. -/
inductive PhysicalInputValue where
  | Axis (instance_id : Int) (value : Int)
  | Button (instance_id : Int) (value : Bool)
  | XY (instance_id : Int) (x : Int) (y : Int) (xrel : Int) (yrel : Int)
deriving DecidableEq

/-- Model of `LogicalInputCallback<State>`: a behavior.  Mutation of `&mut State` plus
a `GameResult<()>` return is modelled as `State → Except E State`. -/
abbrev LogicalInputCallback (L S E : Type) :=
  S → PhysicalInput → PhysicalInputValue → Except E S

/-- Model of `DynamicsCallback<State>`. -/
abbrev DynamicsCallback (S E : Type) := S → Except E S

/-- First-match lookup in an association list; models `HashMap::get` (the
source never iterates its maps, so keyed lookup is the whole interface). -/
def lookupA {K V : Type} [DecidableEq K] : List (K × V) → K → Option V
  | [], _ => none
  | (k, v) :: rest, key => if k = key then some v else lookupA rest key

/-- Key-replacing insert; models `HashMap::insert` (used by `define`). -/
def insertA {K V : Type} [DecidableEq K] : List (K × V) → K → V → List (K × V)
  | [], key, v => [(key, v)]
  | (k, v') :: rest, key, v =>
    if k = key then (key, v) :: rest else (k, v') :: insertA rest key v

/-- Model of `bindings.entry(physical).or_insert_with(Vec::new).push(logical)`:
append `l` to the vector at key `p`, creating the entry if absent. -/
def pushAt {K V : Type} [DecidableEq K] :
    List (K × List V) → K → V → List (K × List V)
  | [], key, v => [(key, [v])]
  | (k, vs) :: rest, key, v =>
    if k = key then (k, vs ++ [v]) :: rest else (k, vs) :: pushAt rest key v

/-- Model of `InputHandler` from src/input_handler.rs lines 36-44.  The `VecDeque`
input queue is a `List` popped at the head and pushed at the tail. -/
structure InputHandler (L S E : Type) where
  definitions : List (L × LogicalInputCallback L S E)
  dynamics : List (DynamicsCallback S E)
  bindings : List (PhysicalInput × List L)
  input_queue : List (L × PhysicalInput × PhysicalInputValue)

variable {L S E : Type} [DecidableEq L]

/-- Model of `InputHandler::new`. -/
def InputHandler.new : InputHandler L S E :=
  { definitions := [], dynamics := [], bindings := [], input_queue := [] }

/-- Model of `define` (src/input_handler.rs lines 59-62): register or overwrite the
behavior for a logical input. -/
def InputHandler.define (h : InputHandler L S E) (logical : L)
    (callback : LogicalInputCallback L S E) : InputHandler L S E :=
  { h with definitions := insertA h.definitions logical callback }

/-- Model of `add_dynamics` (src/input_handler.rs lines 64-67). -/
def InputHandler.add_dynamics (h : InputHandler L S E)
    (callback : DynamicsCallback S E) : InputHandler L S E :=
  { h with dynamics := h.dynamics ++ [callback] }

/-- Model of `bind` (src/input_handler.rs lines 69-75): append `logical` to the
vector bound to `physical`, creating the entry when absent. -/
def InputHandler.bind (h : InputHandler L S E) (physical : PhysicalInput)
    (logical : L) : InputHandler L S E :=
  { h with bindings := pushAt h.bindings physical logical }

/-- One recorded callback invocation inside `update`: either the `i`-th
dynamics callback, or the behavior of logical input `l` invoked with the
physical identity and value popped from the queue. -/
inductive Inv (L : Type) where
  | dyn (i : Nat)
  | beh (l : L) (p : PhysicalInput) (v : PhysicalInputValue)
deriving DecidableEq

/-- The `for callback in &self.dynamics { callback(state)?; }` loop: runs
callbacks left to right, stopping at the first error; returns the result
together with the number of callbacks invoked. -/
def runDynamics : List (DynamicsCallback S E) → S → Except E S × Nat
  | [], s => (.ok s, 0)
  | d :: ds, s =>
    match d s with
    | .error e => (.error e, 1)
    | .ok s' =>
      let r := runDynamics ds s'
      (r.1, r.2 + 1)

/-- The `while let Some(...) = self.input_queue.pop_front()` loop of
`update`: drains the queue front to back, skipping logical inputs with no
definition and stopping at the first behavior error (`?`).  Returns the
result, the invocation trace, and the part of the queue left undrained. -/
def drainQueue (defs : List (L × LogicalInputCallback L S E)) :
    List (L × PhysicalInput × PhysicalInputValue) → S →
    Except E S × List (Inv L) × List (L × PhysicalInput × PhysicalInputValue)
  | [], s => (.ok s, [], [])
  | (l, p, v) :: rest, s =>
    match lookupA defs l with
    | none => drainQueue defs rest s
    | some callback =>
      match callback s p v with
      | .error e => (.error e, [.beh l p v], rest)
      | .ok s' =>
        let r := drainQueue defs rest s'
        (r.1, .beh l p v :: r.2.1, r.2.2)

/-- Model of `update` (src/input_handler.rs lines 77-87): run every dynamics callback
with `?`, then drain the input queue with `?`.  Returns the `GameResult`,
the ordered invocation trace, and the handler with its remaining queue. -/
def InputHandler.update (h : InputHandler L S E) (s : S) :
    Except E S × List (Inv L) × InputHandler L S E :=
  match runDynamics h.dynamics s with
  | (.error e, k) => (.error e, (List.range k).map .dyn, h)
  | (.ok s', k) =>
    let r := drainQueue h.definitions h.input_queue s'
    (r.1, (List.range k).map .dyn ++ r.2.1, { h with input_queue := r.2.2 })

/-- The shared body of every non-wheel event adapter
(src/input_handler.rs lines 89-277): look `p` up in the binding table; if
absent do nothing, otherwise push one queue entry per bound logical input,
in binding-list order, all carrying the same physical identity and value. -/
def enqueueFor (h : InputHandler L S E) (p : PhysicalInput)
    (v : PhysicalInputValue) : InputHandler L S E :=
  match lookupA h.bindings p with
  | none => h
  | some ls =>
    { h with input_queue := h.input_queue ++ ls.map (fun l => (l, p, v)) }

/-- Model of `mouse_button_down_event` (lines 89-104). -/
def InputHandler.mouse_button_down_event (h : InputHandler L S E)
    (button : MouseButton) (x y : Int) : InputHandler L S E :=
  enqueueFor h (.MButton button) (.Button 0 true)

/-- Model of `mouse_button_up_event` (lines 106-121). -/
def InputHandler.mouse_button_up_event (h : InputHandler L S E)
    (button : MouseButton) (x y : Int) : InputHandler L S E :=
  enqueueFor h (.MButton button) (.Button 0 false)

/-- Model of `mouse_motion_event` (lines 123-138). -/
def InputHandler.mouse_motion_event (h : InputHandler L S E)
    (state : MouseState) (x y xrel yrel : Int) : InputHandler L S E :=
  enqueueFor h .MMotion (.XY 0 x y xrel yrel)

/-- The block of queue entries pushed by `n` iterations of the `while` loop
of `mouse_wheel_event` for one direction key: the bound list, mapped to
entries carrying `Button(0, true)`, repeated `n` times. -/
def wheelBatch (ls : List L) (p : PhysicalInput) (n : Nat) :
    List (L × PhysicalInput × PhysicalInputValue) :=
  (List.replicate n (ls.map (fun l => (l, p, PhysicalInputValue.Button 0 true)))).flatten

/-- The `while`/`for` nest of `mouse_wheel_event` for one direction key:
if the key is bound, push the whole binding list once per remaining
magnitude unit, every entry carrying `Button(0, true)`. -/
def wheelEnqueue (h : InputHandler L S E) (p : PhysicalInput) (n : Nat) :
    InputHandler L S E :=
  match lookupA h.bindings p with
  | none => h
  | some ls => { h with input_queue := h.input_queue ++ wheelBatch ls p n }

/-- Model of `mouse_wheel_event` (lines 140-198): the X branch picks
`MWheelX(x > 0)` and loops `|x|` times, then the Y branch does the same
with `MWheelY`. -/
def InputHandler.mouse_wheel_event (h : InputHandler L S E) (x y : Int) :
    InputHandler L S E :=
  let h1 :=
    if x > 0 then wheelEnqueue h (.MWheelX true) x.toNat
    else if x < 0 then wheelEnqueue h (.MWheelX false) (-x).toNat
    else h
  if y > 0 then wheelEnqueue h1 (.MWheelY true) y.toNat
  else if y < 0 then wheelEnqueue h1 (.MWheelY false) (-y).toNat
  else h1

/-- One axis of `mouse_wheel_event`, factored as written in the source: a
positive magnitude drives the positive direction key, a negative one the
negative direction key, zero does nothing.  `mouse_wheel_event` is
definitionally `wheelStep` for X followed by `wheelStep` for Y. -/
def wheelStep (h : InputHandler L S E) (m : Int) (pos neg : PhysicalInput) :
    InputHandler L S E :=
  if m > 0 then wheelEnqueue h pos m.toNat
  else if m < 0 then wheelEnqueue h neg (-m).toNat
  else h

/-- The queue entries contributed by one axis of a wheel event with signed
magnitude `m`, per the direction keys `pos`/`neg`: empty when the magnitude
is zero or the touched direction is unbound, otherwise the bound list
repeated `|m|` times with unit `Button(0, true)` values. -/
def wheelAxisBatch (bs : List (PhysicalInput × List L)) (m : Int)
    (pos neg : PhysicalInput) : List (L × PhysicalInput × PhysicalInputValue) :=
  if m > 0 then
    match lookupA bs pos with
    | none => []
    | some ls => wheelBatch ls pos m.toNat
  else if m < 0 then
    match lookupA bs neg with
    | none => []
    | some ls => wheelBatch ls neg (-m).toNat
  else []

/-- Model of `key_down_event` (lines 200-215); the modifier argument is unused, as in
the source. -/
def InputHandler.key_down_event (h : InputHandler L S E) (keycode : Keycode)
    (keymod : KeyMod) (repeated : Bool) : InputHandler L S E :=
  enqueueFor h (.Key keycode repeated) (.Button 0 true)

/-- Model of `key_up_event` (lines 217-232). -/
def InputHandler.key_up_event (h : InputHandler L S E) (keycode : Keycode)
    (keymod : KeyMod) (repeated : Bool) : InputHandler L S E :=
  enqueueFor h (.Key keycode repeated) (.Button 0 false)

/-- Model of `controller_button_down_event` (lines 234-246): the instance id enters
only the value payload, not the binding key. -/
def InputHandler.controller_button_down_event (h : InputHandler L S E)
    (button : Button) (instance_id : Int) : InputHandler L S E :=
  enqueueFor h (.CButton button) (.Button instance_id true)

/-- Model of `controller_button_up_event` (lines 248-260). -/
def InputHandler.controller_button_up_event (h : InputHandler L S E)
    (button : Button) (instance_id : Int) : InputHandler L S E :=
  enqueueFor h (.CButton button) (.Button instance_id false)

/-- Model of `controller_axis_event` (lines 262-277): the instance id enters only the
value payload, not the binding key. -/
def InputHandler.controller_axis_event (h : InputHandler L S E)
    (axis : Axis) (value : Int) (instance_id : Int) : InputHandler L S E :=
  enqueueFor h (.CAxis axis) (.Axis instance_id value)

/-- The behavior invocations of a queue segment when every defined entry
succeeds: one `Inv.beh` per entry whose logical input has a definition, in
queue order. -/
def behTrace (defs : List (L × LogicalInputCallback L S E))
    (q : List (L × PhysicalInput × PhysicalInputValue)) : List (Inv L) :=
  (q.filter (fun e => (lookupA defs e.1).isSome)).map
    (fun e => .beh e.1 e.2.1 e.2.2)

/-! ### Concrete instances used by counterexamples and witnesses

Logical inputs are `Nat` tags, the application state is the list of tags of
behaviors that ran successfully (in order), and errors are `Nat` codes. -/

/-- A behavior that appends its tag to the state and succeeds. -/
def exLog (n : Nat) : LogicalInputCallback Nat (List Nat) Nat :=
  fun s _ _ => .ok (s ++ [n])

/-- A behavior that always fails with error code 9. -/
def exFail : LogicalInputCallback Nat (List Nat) Nat :=
  fun _ _ _ => .error 9

def exKey : Keycode := ⟨41⟩

def exPhys : PhysicalInput := .Key exKey false

def exVal : PhysicalInputValue := .Button 0 true

/-- Two logical inputs bound to the same key; the first one's behavior
always fails, the second one's succeeds. -/
def exHandlerC1 : InputHandler Nat (List Nat) Nat :=
  ((((InputHandler.new.define 1 exFail).define 2 (exLog 2)).bind exPhys 1).bind
    exPhys 2)

/-- Two defined logical inputs, nothing bound yet. -/
def exHandlerTwo : InputHandler Nat (List Nat) Nat :=
  (InputHandler.new.define 1 (exLog 1)).define 2 (exLog 2)

/-- One logical input bound to controller axis 3 (no instance id in the
key). -/
def exHandlerC5 : InputHandler Nat (List Nat) Nat :=
  InputHandler.new.bind (.CAxis ⟨3⟩) 7

/-- Two logical inputs bound to the positive X wheel direction. -/
def exHandlerC7 : InputHandler Nat (List Nat) Nat :=
  (InputHandler.new.bind (.MWheelX true) 1).bind (.MWheelX true) 2

/-- One logical input bound to the negative X wheel direction and one to the
positive Y direction. -/
def exHandlerC7b : InputHandler Nat (List Nat) Nat :=
  (InputHandler.new.bind (.MWheelX false) 1).bind (.MWheelY true) 2

/-- One defined logical input, nothing bound. -/
def exHandlerC8 : InputHandler Nat (List Nat) Nat :=
  InputHandler.new.define 5 (exLog 5)

/-- The empty handler. -/
def exEmpty : InputHandler Nat (List Nat) Nat := InputHandler.new

end Inputty

/-! ## Helper lemmas -/

namespace Inputty

variable {L S E : Type} [DecidableEq L]

theorem clamp_bounds {v min max : ℚ} (h : min ≤ max) :
    min ≤ clamp v min max ∧ clamp v min max ≤ max := by
  unfold clamp
  split_ifs <;> constructor <;> linarith

theorem axis_update_mem (v : ℚ) (ph : VirtualAxisPhase) (d dr drel : ℚ) :
    -1 ≤ axis_update v ph d dr drel ∧ axis_update v ph d dr drel ≤ 1 := by
  unfold axis_update
  exact clamp_bounds (by norm_num)

theorem AxisState.step_bounds (st : AxisState) (op : AxisOp) (hop : op.valid)
    (h1 : -(32768 / 32767 : ℚ) ≤ st.value) (h2 : st.value ≤ 1) :
    -(32768 / 32767 : ℚ) ≤ (st.step op).value ∧ (st.step op).value ≤ 1 := by
  cases op with
  | analog raw =>
      obtain ⟨hlo, hhi⟩ := hop
      have hlo' : (-32768 : ℚ) ≤ (raw : ℚ) := by exact_mod_cast hlo
      have hhi' : (raw : ℚ) ≤ 32767 := by exact_mod_cast hhi
      simp only [AxisState.step, axis_input_analog]
      constructor
      · have : (-32768 : ℚ) / 32767 ≤ (raw : ℚ) / 32767 :=
          (div_le_div_iff_of_pos_right (by norm_num)).mpr hlo'
        calc -(32768 / 32767 : ℚ) = (-32768 : ℚ) / 32767 := by ring
          _ ≤ (raw : ℚ) / 32767 := this
      · exact (div_le_one (by norm_num)).mpr hhi'
  | pos down => exact ⟨h1, h2⟩
  | neg down => exact ⟨h1, h2⟩
  | tick d dr drel =>
      simp only [AxisState.step]
      have := axis_update_mem st.value st.phase d dr drel
      exact ⟨by linarith [this.1], this.2⟩

theorem AxisState.run_bounds (ops : List AxisOp) (st : AxisState)
    (hv : ∀ op ∈ ops, op.valid)
    (h1 : -(32768 / 32767 : ℚ) ≤ st.value) (h2 : st.value ≤ 1) :
    -(32768 / 32767 : ℚ) ≤ (st.run ops).value ∧ (st.run ops).value ≤ 1 := by
  induction ops generalizing st with
  | nil => exact ⟨h1, h2⟩
  | cons op rest ih =>
      have hop := hv op (List.mem_cons_self op rest)
      have hstep := AxisState.step_bounds st op hop h1 h2
      exact ih (st.step op) (fun o ho => hv o (List.mem_cons_of_mem op ho))
        hstep.1 hstep.2

theorem lookupA_pushAt_self (bs : List (PhysicalInput × List L))
    (p : PhysicalInput) (l : L) :
    lookupA (pushAt bs p l) p = some ((lookupA bs p).getD [] ++ [l]) := by
  induction bs with
  | nil => simp [pushAt, lookupA]
  | cons kv rest ih =>
      obtain ⟨k, vs⟩ := kv
      by_cases hk : k = p
      · subst hk
        simp [pushAt, lookupA]
      · simp [pushAt, lookupA, hk, ih]

theorem behTrace_cons (defs : List (L × LogicalInputCallback L S E))
    (l : L) (p : PhysicalInput) (v : PhysicalInputValue)
    (rest : List (L × PhysicalInput × PhysicalInputValue)) :
    behTrace defs ((l, p, v) :: rest) =
      if (lookupA defs l).isSome then Inv.beh l p v :: behTrace defs rest
      else behTrace defs rest := by
  by_cases hl : (lookupA defs l).isSome <;>
    simp [behTrace, List.filter_cons, hl]

theorem behTrace_append (defs : List (L × LogicalInputCallback L S E))
    (q1 q2 : List (L × PhysicalInput × PhysicalInputValue)) :
    behTrace defs (q1 ++ q2) = behTrace defs q1 ++ behTrace defs q2 := by
  simp [behTrace, List.filter_append]

theorem runDynamics_ok_count (ds : List (DynamicsCallback S E)) (s s' : S)
    (h : (runDynamics ds s).1 = .ok s') : (runDynamics ds s).2 = ds.length := by
  induction ds generalizing s with
  | nil => rfl
  | cons d rest ih =>
      simp only [runDynamics] at h ⊢
      cases hd : d s with
      | error e => rw [hd] at h; simp at h
      | ok s0 =>
          rw [hd] at h
          dsimp only at h ⊢
          simp only [List.length_cons]
          rw [ih s0 h]

theorem drainQueue_ok_spec (defs : List (L × LogicalInputCallback L S E))
    (q : List (L × PhysicalInput × PhysicalInputValue)) (s s' : S)
    (h : (drainQueue defs q s).1 = .ok s') :
    (drainQueue defs q s).2.1 = behTrace defs q ∧
    (drainQueue defs q s).2.2 = [] := by
  induction q generalizing s with
  | nil => simp [drainQueue, behTrace]
  | cons e rest ih =>
      obtain ⟨l, p, v⟩ := e
      simp only [drainQueue] at h ⊢
      cases hl : lookupA defs l with
      | none =>
          rw [hl] at h
          dsimp only at h ⊢
          rw [behTrace_cons]
          simp only [hl, Option.isSome_none, Bool.false_eq_true, if_false]
          exact ih s h
      | some f =>
          rw [hl] at h
          dsimp only at h ⊢
          cases hf : f s p v with
          | error e' => rw [hf] at h; simp at h
          | ok s0 =>
              rw [hf] at h
              dsimp only at h ⊢
              rw [behTrace_cons]
              simp only [hl, Option.isSome_some, if_true]
              exact ⟨by rw [(ih s0 h).1], (ih s0 h).2⟩

theorem drainQueue_append (defs : List (L × LogicalInputCallback L S E))
    (q1 q2 : List (L × PhysicalInput × PhysicalInputValue)) (s s1 : S)
    (h : (drainQueue defs q1 s).1 = .ok s1) :
    drainQueue defs (q1 ++ q2) s =
      ((drainQueue defs q2 s1).1,
        (drainQueue defs q1 s).2.1 ++ (drainQueue defs q2 s1).2.1,
        (drainQueue defs q2 s1).2.2) := by
  induction q1 generalizing s with
  | nil =>
      simp only [drainQueue] at h
      cases h
      simp [drainQueue]
  | cons e rest ih =>
      obtain ⟨l, p, v⟩ := e
      simp only [List.cons_append, drainQueue] at h ⊢
      cases hl : lookupA defs l with
      | none =>
          rw [hl] at h
          dsimp only at h ⊢
          exact ih s h
      | some f =>
          rw [hl] at h
          dsimp only at h ⊢
          cases hf : f s p v with
          | error e' => rw [hf] at h; simp at h
          | ok s0 =>
              rw [hf] at h
              dsimp only at h ⊢
              simp only [List.append_eq]
              rw [ih s0 h]
              rfl

theorem update_ok_spec (h : InputHandler L S E) (s s' : S)
    (hok : (h.update s).1 = .ok s') :
    (h.update s).2.1 = (List.range h.dynamics.length).map Inv.dyn ++
      behTrace h.definitions h.input_queue ∧
    (h.update s).2.2 = { h with input_queue := [] } := by
  unfold InputHandler.update at hok ⊢
  rcases hrd : runDynamics h.dynamics s with ⟨res, k⟩
  cases res with
  | error e => rw [hrd] at hok; simp at hok
  | ok s0 =>
      rw [hrd] at hok
      dsimp only at hok ⊢
      have hk : k = h.dynamics.length := by
        have hc := runDynamics_ok_count h.dynamics s s0 (by rw [hrd])
        rw [hrd] at hc
        exact hc
      have hd := drainQueue_ok_spec h.definitions h.input_queue s0 s' hok
      rw [hk, hd.1, hd.2]
      exact ⟨rfl, rfl⟩

theorem update_err_spec (h : InputHandler L S E) (s s0 s1 : S)
    (q1 q2 : List (L × PhysicalInput × PhysicalInputValue))
    (l : L) (p : PhysicalInput) (v : PhysicalInputValue)
    (f : LogicalInputCallback L S E) (e : E) (k : Nat)
    (hq : h.input_queue = q1 ++ (l, p, v) :: q2)
    (hdyn : runDynamics h.dynamics s = (.ok s0, k))
    (hq1 : (drainQueue h.definitions q1 s0).1 = .ok s1)
    (hf : lookupA h.definitions l = some f)
    (he : f s1 p v = .error e) :
    h.update s = (.error e,
      (List.range h.dynamics.length).map Inv.dyn ++
        (behTrace h.definitions q1 ++ [Inv.beh l p v]),
      { h with input_queue := q2 }) := by
  have hk : k = h.dynamics.length := by
    have hc := runDynamics_ok_count h.dynamics s s0 (by rw [hdyn])
    rw [hdyn] at hc
    exact hc
  unfold InputHandler.update
  rw [hdyn]
  simp only
  rw [hq, drainQueue_append h.definitions q1 ((l, p, v) :: q2) s0 s1 hq1]
  simp only [drainQueue, hf, he]
  rw [(drainQueue_ok_spec h.definitions q1 s0 s1 hq1).1, hk]

theorem behTrace_nil (defs : List (L × LogicalInputCallback L S E)) :
    behTrace defs [] = [] := rfl

theorem filter_map_entry_length (ls : List L) (p : PhysicalInput)
    (v : PhysicalInputValue) (lg : L) :
    ((ls.map (fun l => (l, p, v))).filter (fun e => e.1 = lg)).length =
      (ls.filter (fun l' => l' = lg)).length := by
  induction ls with
  | nil => rfl
  | cons a rest ih =>
      by_cases ha : a = lg <;> simp [List.filter_cons, ha, ih]

theorem wheelBatch_filter_length (ls : List L) (p : PhysicalInput) (n : Nat)
    (lg : L) :
    ((wheelBatch ls p n).filter (fun e => e.1 = lg)).length =
      n * (ls.filter (fun l' => l' = lg)).length := by
  induction n with
  | zero => simp [wheelBatch]
  | succ m ih =>
      simp only [wheelBatch, List.replicate_succ, List.flatten_cons,
        List.filter_append, List.length_append] at ih ⊢
      rw [ih, filter_map_entry_length, Nat.succ_mul]
      exact Nat.add_comm _ _

theorem wheelBatch_mem (ls : List L) (p : PhysicalInput) (n : Nat)
    (e : L × PhysicalInput × PhysicalInputValue) (he : e ∈ wheelBatch ls p n) :
    e.2.1 = p ∧ e.2.2 = PhysicalInputValue.Button 0 true := by
  rcases List.mem_flatten.mp he with ⟨xs, hxs, hexs⟩
  have hx := List.eq_of_mem_replicate hxs
  subst hx
  rcases List.mem_map.mp hexs with ⟨l, hl, rfl⟩
  exact ⟨rfl, rfl⟩

theorem InputHandler.eq_of_fields (a b : InputHandler L S E)
    (h1 : a.definitions = b.definitions) (h2 : a.dynamics = b.dynamics)
    (h3 : a.bindings = b.bindings) (h4 : a.input_queue = b.input_queue) :
    a = b := by
  cases a
  cases b
  simp_all

theorem wheelStep_spec (h : InputHandler L S E) (m : Int)
    (pos neg : PhysicalInput) :
    (wheelStep h m pos neg).input_queue =
      h.input_queue ++ wheelAxisBatch h.bindings m pos neg ∧
    (wheelStep h m pos neg).definitions = h.definitions ∧
    (wheelStep h m pos neg).dynamics = h.dynamics ∧
    (wheelStep h m pos neg).bindings = h.bindings := by
  unfold wheelStep wheelAxisBatch
  by_cases h1 : m > 0
  · simp only [if_pos h1]
    cases hl : lookupA h.bindings pos <;> simp [wheelEnqueue, hl]
  · simp only [if_neg h1]
    by_cases h2 : m < 0
    · simp only [if_pos h2]
      cases hl : lookupA h.bindings neg <;> simp [wheelEnqueue, hl]
    · simp only [if_neg h2]
      simp

theorem mouse_wheel_event_spec (h : InputHandler L S E) (x y : Int) :
    (h.mouse_wheel_event x y).input_queue =
      h.input_queue ++ wheelAxisBatch h.bindings x (.MWheelX true) (.MWheelX false)
        ++ wheelAxisBatch h.bindings y (.MWheelY true) (.MWheelY false) ∧
    (h.mouse_wheel_event x y).definitions = h.definitions ∧
    (h.mouse_wheel_event x y).dynamics = h.dynamics ∧
    (h.mouse_wheel_event x y).bindings = h.bindings := by
  have hcomp : h.mouse_wheel_event x y =
      wheelStep (wheelStep h x (.MWheelX true) (.MWheelX false)) y
        (.MWheelY true) (.MWheelY false) := rfl
  rw [hcomp]
  have s1 := wheelStep_spec h x (.MWheelX true) (.MWheelX false)
  have s2 := wheelStep_spec (wheelStep h x (.MWheelX true) (.MWheelX false)) y
    (.MWheelY true) (.MWheelY false)
  refine ⟨?_, ?_, ?_, ?_⟩
  · rw [s2.1, s1.2.2.2, s1.1]
  · rw [s2.2.1, s1.2.1]
  · rw [s2.2.2.1, s1.2.2.1]
  · rw [s2.2.2.2, s1.2.2.2]

theorem wheelAxisBatch_eq_nil (bs : List (PhysicalInput × List L)) (m : Int)
    (pos neg : PhysicalInput)
    (hp : m > 0 → lookupA bs pos = none)
    (hn : m < 0 → lookupA bs neg = none) :
    wheelAxisBatch bs m pos neg = [] := by
  unfold wheelAxisBatch
  by_cases h1 : m > 0
  · rw [if_pos h1, hp h1]
  · rw [if_neg h1]
    by_cases h2 : m < 0
    · rw [if_pos h2, hn h2]
    · rw [if_neg h2]

end Inputty

/-! ## Claim theorems -/

namespace Inputty

variable {L S E : Type} [DecidableEq L]

/-- C2 (counterexample).  The single valid operation sequence consisting
of one analog event with the extreme raw `i16` value `-32768` drives the
axis value strictly below `-1.0`, so the value does not always stay within
`[-1.0, 1.0]`. -/
theorem axis_value_escapes_unit_interval :
    (∀ op ∈ [AxisOp.analog (-32768)], op.valid) ∧
    (AxisState.run .init [AxisOp.analog (-32768)]).value < -1 := by
  constructor
  · intro op hop
    simp only [List.mem_singleton] at hop
    subst hop
    constructor <;> norm_num
  · norm_num [AxisState.run, AxisState.step, AxisState.init, axis_input_analog,
      List.foldl]

/-- C2 (amended).  For every sequence of valid virtual-axis operations
(analog events carry an `i16` raw value, tick deltas are non-negative)
starting from the initial state, the axis value stays within
`[-32768/32767, 1.0]`: the upper bound `1.0` always holds, and the lower
bound `-1.0` can be undershot only down to `-32768/32767 ≈ -1.0000305`,
reached by an analog event with raw value `-32768`. -/
theorem axis_value_bounded (ops : List AxisOp)
    (hv : ∀ op ∈ ops, op.valid) :
    -(32768 / 32767 : ℚ) ≤ (AxisState.run .init ops).value ∧
    (AxisState.run .init ops).value ≤ 1 :=
  AxisState.run_bounds ops .init hv (by norm_num [AxisState.init])
    (by norm_num [AxisState.init])

/-- C2 (witness for the amended theorem): a concrete valid sequence. -/
theorem axis_value_bounded_witness :
    (∀ op ∈ [AxisOp.analog 16384, AxisOp.pos true,
        AxisOp.tick (1/10) (2/10) (1/10)], op.valid) ∧
    (-(32768 / 32767 : ℚ) ≤
        (AxisState.run .init [AxisOp.analog 16384, AxisOp.pos true,
          AxisOp.tick (1/10) (2/10) (1/10)]).value ∧
      (AxisState.run .init [AxisOp.analog 16384, AxisOp.pos true,
          AxisOp.tick (1/10) (2/10) (1/10)]).value ≤ 1) := by
  have hv : ∀ op ∈ [AxisOp.analog 16384, AxisOp.pos true,
      AxisOp.tick (1/10) (2/10) (1/10)], op.valid := by
    intro op hop
    simp only [List.mem_cons, List.not_mem_nil, or_false] at hop
    rcases hop with h | h | h <;> subst h <;>
      simp only [AxisOp.valid] <;> norm_num
  exact ⟨hv, axis_value_bounded _ hv⟩

/-- C3 (counterexample).  With a negative relax-delta the code and the
spec's reference step disagree in phase `Relax`: at value 0 with
relax-delta -1 the code moves the value away from zero to 1, while the
reference step (which never moves a value already at or inside the
relax-delta band) yields -1 after clamping. -/
theorem axis_update_ne_spec_at_negative_relax :
    axis_update 0 .Relax 0 0 (-1) ≠ axis_update_spec 0 .Relax 0 0 (-1) := by
  norm_num [axis_update, axis_update_spec, clamp]

/-- C3 (amended).  For every value, phase, accelerate-delta and
reverse-delta, and every *non-negative* relax-delta, one call to
`axis_update` equals the spec's reference step: Relax decays toward 0 by
the relax-delta, snapping to exactly 0 when `|value| ≤ relax-delta`;
Increase adds the accelerate-delta when the value is positive and the
reverse-delta otherwise (including at exactly 0); Decrease symmetrically;
Ignore leaves the value; and the result is clamped to `[-1, 1]` in every
phase. -/
theorem axis_update_eq_spec (v : ℚ) (ph : VirtualAxisPhase)
    (d dr drel : ℚ) (hrel : 0 ≤ drel) :
    axis_update v ph d dr drel = axis_update_spec v ph d dr drel := by
  cases ph with
  | Increase => rfl
  | Decrease => rfl
  | Ignore => rfl
  | Relax =>
      simp only [axis_update, axis_update_spec]
      have hcl : ∀ a b : ℚ, a = b → clamp a (-1) 1 = clamp b (-1) 1 :=
        fun a b hab => by rw [hab]
      apply hcl
      by_cases h1 : v > drel
      · have hv : (0 : ℚ) < v := lt_of_le_of_lt hrel h1
        have habs : ¬ |v| ≤ drel := by rw [abs_of_pos hv]; linarith
        rw [if_pos h1, if_neg habs, if_pos hv]
      · by_cases h2 : v < -drel
        · have hv : v < 0 := by linarith
          have habs : ¬ |v| ≤ drel := by rw [abs_of_neg hv]; linarith
          rw [if_neg h1, if_pos h2, if_neg habs,
            if_neg (not_lt.mpr (le_of_lt hv))]
        · have habs : |v| ≤ drel := abs_le.mpr ⟨by linarith, by linarith⟩
          rw [if_neg h1, if_neg h2, if_pos habs]

/-- C3 (witness for the amended theorem): a concrete instance with a
non-negative relax-delta. -/
theorem axis_update_eq_spec_witness :
    (0 : ℚ) ≤ 1/4 ∧
    axis_update (1/2) .Relax 0 0 (1/4) = axis_update_spec (1/2) .Relax 0 0 (1/4) :=
  ⟨by norm_num, axis_update_eq_spec (1/2) .Relax 0 0 (1/4) (by norm_num)⟩

/-- C6.  For every current value and phase, an analog event carrying
raw axis value `r` sets the phase to `Ignore` and the value to
`r / 32767` (the maximum `i16`); at `r = 16384` the value is within
`1/10000` of `0.5`, with phase `Ignore`. -/
theorem axis_input_analog_normalizes :
    (∀ (v : ℚ) (ph : VirtualAxisPhase) (r : Int),
      axis_input_analog v ph (.Axis r) = ((r : ℚ) / 32767, .Ignore)) ∧
    (∀ (v : ℚ) (ph : VirtualAxisPhase),
      |(axis_input_analog v ph (.Axis 16384)).1 - 1/2| ≤ 1/10000 ∧
      (axis_input_analog v ph (.Axis 16384)).2 = .Ignore) := by
  refine ⟨fun v ph r => rfl, fun v ph => ⟨?_, rfl⟩⟩
  simp only [axis_input_analog]
  rw [abs_le]
  constructor <;> norm_num

/-- C1 (counterexample).  Two logical inputs are bound to the same key;
the first one's behavior fails.  `update` returns the error to its caller
(the error *does* propagate out of `update`), the sibling behavior is *not*
invoked in that update call (the trace holds only the failing invocation),
and its queue entry is left behind. -/
theorem update_error_stops_siblings_cex :
    ((exHandlerC1.key_down_event exKey () false).update []).1 =
      .error 9 ∧
    ((exHandlerC1.key_down_event exKey () false).update []).2.1 =
      [Inv.beh 1 exPhys exVal] ∧
    ((exHandlerC1.key_down_event exKey () false).update []).2.2.input_queue =
      [(2, exPhys, exVal)] :=
  ⟨rfl, rfl, rfl⟩

/-- C1 (amended).  If, while draining the queue, the behavior of a
queued entry returns an error, `update` returns that error to its caller;
the queued behaviors after it — including siblings bound to the same
physical event — are not invoked in that update call and their entries stay
in the queue. -/
theorem update_error_propagates (h : InputHandler L S E) (s s0 s1 : S)
    (q1 q2 : List (L × PhysicalInput × PhysicalInputValue))
    (l : L) (p : PhysicalInput) (v : PhysicalInputValue)
    (f : LogicalInputCallback L S E) (e : E) (k : Nat)
    (hq : h.input_queue = q1 ++ (l, p, v) :: q2)
    (hdyn : runDynamics h.dynamics s = (.ok s0, k))
    (hq1 : (drainQueue h.definitions q1 s0).1 = .ok s1)
    (hf : lookupA h.definitions l = some f)
    (he : f s1 p v = .error e) :
    (h.update s).1 = .error e ∧
    (h.update s).2.1 = (List.range h.dynamics.length).map Inv.dyn ++
      (behTrace h.definitions q1 ++ [Inv.beh l p v]) ∧
    (h.update s).2.2.input_queue = q2 := by
  have hu := update_err_spec h s s0 s1 q1 q2 l p v f e k hq hdyn hq1 hf he
  rw [hu]
  exact ⟨rfl, rfl, rfl⟩

/-- C1 (witness for the amended theorem), at the concrete two-binding
handler. -/
theorem update_error_propagates_witness :
    ((exHandlerC1.key_down_event exKey () false).update []).1 = .error 9 ∧
    ((exHandlerC1.key_down_event exKey () false).update []).2.2.input_queue =
      [(2, exPhys, exVal)] := by
  have t := update_error_propagates (exHandlerC1.key_down_event exKey () false)
    [] [] [] [] [(2, exPhys, exVal)] 1 exPhys exVal exFail 9 0
    rfl rfl rfl rfl rfl
  exact ⟨t.1, t.2.2⟩

/-- C10.  If the behavior of a queued entry errors during `update`, the
call returns immediately with that error; the entries up to and including
the failing one have been popped, the entries after it remain in the queue
unchanged, and a subsequent successful `update` call dispatches exactly
those remaining (defined) entries in order and empties the queue. -/
theorem update_error_keeps_remaining_queue (h : InputHandler L S E)
    (s s0 s1 : S)
    (q1 q2 : List (L × PhysicalInput × PhysicalInputValue))
    (l : L) (p : PhysicalInput) (v : PhysicalInputValue)
    (f : LogicalInputCallback L S E) (e : E) (k : Nat)
    (hq : h.input_queue = q1 ++ (l, p, v) :: q2)
    (hdyn : runDynamics h.dynamics s = (.ok s0, k))
    (hq1 : (drainQueue h.definitions q1 s0).1 = .ok s1)
    (hf : lookupA h.definitions l = some f)
    (he : f s1 p v = .error e) :
    (h.update s).1 = .error e ∧
    (h.update s).2.2 = { h with input_queue := q2 } ∧
    (∀ s2 s3 : S,
      (({ h with input_queue := q2 } : InputHandler L S E).update s2).1 =
        .ok s3 →
      (({ h with input_queue := q2 } : InputHandler L S E).update s2).2.1 =
        (List.range h.dynamics.length).map Inv.dyn ++
          behTrace h.definitions q2 ∧
      (({ h with input_queue := q2 } : InputHandler L S E).update s2).2.2 =
        { h with input_queue := ([] : List (L × PhysicalInput × PhysicalInputValue)) }) := by
  have hu := update_err_spec h s s0 s1 q1 q2 l p v f e k hq hdyn hq1 hf he
  refine ⟨by rw [hu], by rw [hu], ?_⟩
  intro s2 s3 hok
  have t := update_ok_spec ({ h with input_queue := q2 }) s2 s3 hok
  simpa using t

/-- C10 (witness), at the concrete two-binding handler: the first
update errors and leaves entry 2 queued; the next update dispatches it. -/
theorem update_error_keeps_remaining_queue_witness :
    ((exHandlerC1.key_down_event exKey () false).update []).1 = .error 9 ∧
    ((exHandlerC1.key_down_event exKey () false).update []).2.2 =
      { exHandlerC1.key_down_event exKey () false with
        input_queue := [(2, exPhys, exVal)] } ∧
    (({ exHandlerC1.key_down_event exKey () false with
        input_queue := [(2, exPhys, exVal)] } : InputHandler Nat (List Nat) Nat).update []).2.1 =
      [Inv.beh 2 exPhys exVal] := by
  have t := update_error_keeps_remaining_queue
    (exHandlerC1.key_down_event exKey () false)
    [] [] [] [] [(2, exPhys, exVal)] 1 exPhys exVal exFail 9 0
    rfl rfl rfl rfl rfl
  exact ⟨t.1, t.2.1, ((t.2.2 [] [2] rfl).1).trans rfl⟩

/-- C4.  A successful `update` invokes all dynamics callbacks in
registration order and then drains the queue in FIFO order, invoking each
defined queued behavior; consequently, after `bind(P, l1)` then
`bind(P, l2)`, an event on `P` makes a successful `update` invoke `l1`'s
behavior before `l2`'s. -/
theorem update_dispatch_order (h : InputHandler L S E) (s : S) :
    (∀ s' : S, (h.update s).1 = .ok s' →
      (h.update s).2.1 = (List.range h.dynamics.length).map Inv.dyn ++
        behTrace h.definitions h.input_queue) ∧
    (∀ (P : PhysicalInput) (l1 l2 : L) (v : PhysicalInputValue) (s' : S),
      (lookupA h.definitions l1).isSome = true →
      (lookupA h.definitions l2).isSome = true →
      ((enqueueFor ((h.bind P l1).bind P l2) P v).update s).1 = .ok s' →
      ∃ t : List (Inv L),
        ((enqueueFor ((h.bind P l1).bind P l2) P v).update s).2.1 =
          t ++ [Inv.beh l1 P v, Inv.beh l2 P v]) := by
  constructor
  · intro s' hok
    exact (update_ok_spec h s s' hok).1
  · intro P l1 l2 v s' hd1 hd2 hok
    have hb : lookupA (pushAt (pushAt h.bindings P l1) P l2) P =
        some ((lookupA h.bindings P).getD [] ++ [l1] ++ [l2]) := by
      rw [lookupA_pushAt_self, lookupA_pushAt_self]
      rfl
    have hE : enqueueFor ((h.bind P l1).bind P l2) P v =
        { h with
          bindings := pushAt (pushAt h.bindings P l1) P l2,
          input_queue := h.input_queue ++
            ((lookupA h.bindings P).getD [] ++ [l1] ++ [l2]).map
              (fun l => (l, P, v)) } := by
      simp [enqueueFor, InputHandler.bind, hb]
    rw [hE] at hok ⊢
    have hmain := (update_ok_spec _ s s' hok).1
    rw [hmain]
    refine ⟨(List.range h.dynamics.length).map Inv.dyn ++
      (behTrace h.definitions h.input_queue ++
        behTrace h.definitions
          (((lookupA h.bindings P).getD []).map (fun l => (l, P, v)))), ?_⟩
    simp only [List.map_append, behTrace_append, List.map_cons, List.map_nil,
      behTrace_cons, behTrace_nil, hd1, hd2, if_true]
    simp [List.append_assoc]

/-- C4 (witness): two logical inputs bound in order to the same key,
then one key event and a successful update. -/
theorem update_dispatch_order_witness :
    ((enqueueFor ((exHandlerTwo.bind exPhys 1).bind exPhys 2) exPhys
        exVal).update []).1 = .ok [1, 2] ∧
    ∃ t : List (Inv Nat),
      ((enqueueFor ((exHandlerTwo.bind exPhys 1).bind exPhys 2) exPhys
          exVal).update []).2.1 =
        t ++ [Inv.beh 1 exPhys exVal, Inv.beh 2 exPhys exVal] :=
  ⟨rfl, (update_dispatch_order exHandlerTwo []).2 exPhys 1 2 exVal [1, 2]
    rfl rfl rfl⟩

/-- C5 (counterexample).  The binding key for controller axes does not
discriminate by device instance id: with a single binding registered under
`CAxis 3`, axis events with instance ids 0 and 1 both resolve against that
one entry and both trigger the bound logical input (the instance id lands
only in the value payload). -/
theorem controller_axis_instance_cex :
    (exHandlerC5.controller_axis_event ⟨3⟩ 5 0).input_queue =
      [(7, .CAxis ⟨3⟩, .Axis 0 5)] ∧
    (exHandlerC5.controller_axis_event ⟨3⟩ 5 1).input_queue =
      [(7, .CAxis ⟨3⟩, .Axis 1 5)] :=
  ⟨rfl, rfl⟩

/-- C5 (amended).  The `PhysicalInput` identity for controller axes and
buttons does *not* include the device instance id: two controller events
with the same axis (or button) id but different instance ids resolve
against the same binding-table entry and enqueue the same logical inputs
with the same physical identity; the instance id appears only in the
`PhysicalInputValue` payload. -/
theorem controller_events_ignore_instance (h : InputHandler L S E)
    (a : Axis) (b : Button) (val i1 i2 : Int) :
    (h.controller_axis_event a val i1).input_queue.map
        (fun e => (e.1, e.2.1)) =
      (h.controller_axis_event a val i2).input_queue.map
        (fun e => (e.1, e.2.1)) ∧
    (h.controller_button_down_event b i1).input_queue.map
        (fun e => (e.1, e.2.1)) =
      (h.controller_button_down_event b i2).input_queue.map
        (fun e => (e.1, e.2.1)) ∧
    (h.controller_button_up_event b i1).input_queue.map
        (fun e => (e.1, e.2.1)) =
      (h.controller_button_up_event b i2).input_queue.map
        (fun e => (e.1, e.2.1)) := by
  refine ⟨?_, ?_, ?_⟩
  · cases hl : lookupA h.bindings (.CAxis a) <;>
      simp [InputHandler.controller_axis_event, enqueueFor, hl]
  · cases hl : lookupA h.bindings (.CButton b) <;>
      simp [InputHandler.controller_button_down_event, enqueueFor, hl]
  · cases hl : lookupA h.bindings (.CButton b) <;>
      simp [InputHandler.controller_button_up_event, enqueueFor, hl]

/-- C7.  For every wheel event (x, y), the queue gains exactly the X-axis
contribution followed by the Y-axis contribution; and on every axis
direction (positive or negative, X or Y) with magnitude `m` and a bound
list `ls`, that contribution is the bound list repeated `|m|` times, so
each bound logical input is dispatched exactly `|m|` separate times, every
entry carrying a `Button(0, true)` unit-tick value rather than the
magnitude. -/
theorem wheel_event_unit_dispatches (h : InputHandler L S E) (x y : Int) :
    ((h.mouse_wheel_event x y).input_queue =
      h.input_queue ++
        wheelAxisBatch h.bindings x (.MWheelX true) (.MWheelX false) ++
        wheelAxisBatch h.bindings y (.MWheelY true) (.MWheelY false)) ∧
    (∀ (m : Int) (pos neg : PhysicalInput) (ls : List L) (lg : L),
      0 < m → lookupA h.bindings pos = some ls →
      wheelAxisBatch h.bindings m pos neg = wheelBatch ls pos m.toNat ∧
      ((wheelBatch ls pos m.toNat).filter (fun e => e.1 = lg)).length =
        m.toNat * (ls.filter (fun l' => l' = lg)).length ∧
      (∀ e ∈ wheelBatch ls pos m.toNat,
        e.2.1 = pos ∧ e.2.2 = PhysicalInputValue.Button 0 true)) ∧
    (∀ (m : Int) (pos neg : PhysicalInput) (ls : List L) (lg : L),
      m < 0 → lookupA h.bindings neg = some ls →
      wheelAxisBatch h.bindings m pos neg = wheelBatch ls neg (-m).toNat ∧
      ((wheelBatch ls neg (-m).toNat).filter (fun e => e.1 = lg)).length =
        (-m).toNat * (ls.filter (fun l' => l' = lg)).length ∧
      (∀ e ∈ wheelBatch ls neg (-m).toNat,
        e.2.1 = neg ∧ e.2.2 = PhysicalInputValue.Button 0 true)) := by
  refine ⟨(mouse_wheel_event_spec h x y).1, ?_, ?_⟩
  · intro m pos neg ls lg hm hl
    refine ⟨?_, wheelBatch_filter_length ls pos m.toNat lg,
      fun e he => wheelBatch_mem ls pos m.toNat e he⟩
    unfold wheelAxisBatch
    rw [if_pos hm, hl]
  · intro m pos neg ls lg hm hl
    refine ⟨?_, wheelBatch_filter_length ls neg (-m).toNat lg,
      fun e he => wheelBatch_mem ls neg (-m).toNat e he⟩
    unfold wheelAxisBatch
    rw [if_neg (not_lt.mpr (le_of_lt hm)), if_pos hm, hl]

/-- C7 (witness): a wheel event with x = -2 and y = 3 on a handler with
the negative X direction bound to input 1 and the positive Y direction
bound to input 2; both direction clauses and the whole-event queue shape
are exercised, and the resulting queue is computed explicitly. -/
theorem wheel_event_unit_dispatches_witness :
    ((exHandlerC7b.mouse_wheel_event (-2) 3).input_queue =
      exHandlerC7b.input_queue ++
        wheelAxisBatch exHandlerC7b.bindings (-2) (.MWheelX true) (.MWheelX false) ++
        wheelAxisBatch exHandlerC7b.bindings 3 (.MWheelY true) (.MWheelY false)) ∧
    (exHandlerC7b.mouse_wheel_event (-2) 3).input_queue =
      [(1, .MWheelX false, .Button 0 true), (1, .MWheelX false, .Button 0 true),
        (2, .MWheelY true, .Button 0 true), (2, .MWheelY true, .Button 0 true),
        (2, .MWheelY true, .Button 0 true)] ∧
    ((0 : Int) < 3 ∧
      wheelAxisBatch exHandlerC7b.bindings 3 (.MWheelY true) (.MWheelY false) =
        wheelBatch [2] (.MWheelY true) (3 : Int).toNat ∧
      ((wheelBatch ([2] : List Nat) (.MWheelY true) (3 : Int).toNat).filter
          (fun e => e.1 = 2)).length =
        (3 : Int).toNat * (([2] : List Nat).filter (fun l' => l' = 2)).length) ∧
    ((-2 : Int) < 0 ∧
      wheelAxisBatch exHandlerC7b.bindings (-2) (.MWheelX true) (.MWheelX false) =
        wheelBatch [1] (.MWheelX false) (-(-2) : Int).toNat) := by
  have t := wheel_event_unit_dispatches exHandlerC7b (-2) 3
  have ty := t.2.1 3 (.MWheelY true) (.MWheelY false) [2] 2 (by decide) rfl
  have tx := t.2.2 (-2) (.MWheelX true) (.MWheelX false) [1] 1 (by decide) rfl
  exact ⟨t.1, t.1.trans rfl, ⟨by decide, ty.1, ty.2.1⟩, ⟨by decide, tx.1⟩⟩

/-- C8.  Binding the same (physical, logical) pair twice accumulates:
the list bound to `P` becomes `[l, l]`, and a subsequent event on `P`
followed by a successful `update` invokes `l`'s behavior exactly twice. -/
theorem duplicate_bind_invokes_twice (h : InputHandler L S E)
    (P : PhysicalInput) (l : L) (v : PhysicalInputValue) (s : S)
    (hb : lookupA h.bindings P = none) (hq : h.input_queue = [])
    (hd : (lookupA h.definitions l).isSome = true) :
    lookupA ((h.bind P l).bind P l).bindings P = some [l, l] ∧
    (∀ s' : S,
      ((enqueueFor ((h.bind P l).bind P l) P v).update s).1 = .ok s' →
      ((enqueueFor ((h.bind P l).bind P l) P v).update s).2.1 =
        (List.range h.dynamics.length).map Inv.dyn ++
          [Inv.beh l P v, Inv.beh l P v]) := by
  have hb2 : lookupA ((h.bind P l).bind P l).bindings P = some [l, l] := by
    show lookupA (pushAt (pushAt h.bindings P l) P l) P = _
    rw [lookupA_pushAt_self, lookupA_pushAt_self, hb]
    rfl
  refine ⟨hb2, ?_⟩
  intro s' hok
  have hb2' : lookupA (pushAt (pushAt h.bindings P l) P l) P = some [l, l] :=
    hb2
  have hE : enqueueFor ((h.bind P l).bind P l) P v =
      { h with
        bindings := pushAt (pushAt h.bindings P l) P l,
        input_queue := h.input_queue ++ [(l, P, v), (l, P, v)] } := by
    simp [enqueueFor, InputHandler.bind, hb2']
  rw [hE] at hok ⊢
  have hmain := (update_ok_spec _ s s' hok).1
  rw [hmain]
  simp only [hq, List.nil_append, behTrace_cons, behTrace_nil, hd, if_true]

/-- C8 (witness): a concrete handler with `l = 5` defined and bound
twice to the same key. -/
theorem duplicate_bind_invokes_twice_witness :
    lookupA ((exHandlerC8.bind exPhys 5).bind exPhys 5).bindings exPhys =
      some [5, 5] ∧
    ((enqueueFor ((exHandlerC8.bind exPhys 5).bind exPhys 5) exPhys
        exVal).update []).2.1 =
      [Inv.beh 5 exPhys exVal, Inv.beh 5 exPhys exVal] := by
  have t := duplicate_bind_invokes_twice exHandlerC8 exPhys 5 exVal []
    rfl rfl rfl
  exact ⟨t.1, (t.2 [5, 5] rfl).trans rfl⟩

/-- C9.  Delivering an event whose physical input has no binding leaves
the handler completely unchanged — nothing is enqueued and no error can
arise — for the generic enqueue step and for every event-adapter entry
point; and `update` on an empty queue invokes no behavior and returns
exactly the result of the dynamics pass. -/
theorem unbound_input_is_noop (h : InputHandler L S E) :
    (∀ (P : PhysicalInput) (v : PhysicalInputValue),
      lookupA h.bindings P = none → enqueueFor h P v = h) ∧
    (∀ (k : Keycode) (km : KeyMod) (rep : Bool),
      lookupA h.bindings (.Key k rep) = none →
        h.key_down_event k km rep = h ∧ h.key_up_event k km rep = h) ∧
    (∀ (b : MouseButton) (x y : Int),
      lookupA h.bindings (.MButton b) = none →
        h.mouse_button_down_event b x y = h ∧
        h.mouse_button_up_event b x y = h) ∧
    (∀ (ms : MouseState) (x y xrel yrel : Int),
      lookupA h.bindings .MMotion = none →
        h.mouse_motion_event ms x y xrel yrel = h) ∧
    (∀ (b : Button) (i : Int),
      lookupA h.bindings (.CButton b) = none →
        h.controller_button_down_event b i = h ∧
        h.controller_button_up_event b i = h) ∧
    (∀ (a : Axis) (val i : Int),
      lookupA h.bindings (.CAxis a) = none →
        h.controller_axis_event a val i = h) ∧
    (∀ x y : Int,
      (x > 0 → lookupA h.bindings (.MWheelX true) = none) →
      (x < 0 → lookupA h.bindings (.MWheelX false) = none) →
      (y > 0 → lookupA h.bindings (.MWheelY true) = none) →
      (y < 0 → lookupA h.bindings (.MWheelY false) = none) →
      h.mouse_wheel_event x y = h) ∧
    (∀ s : S, h.input_queue = [] →
      (h.update s).1 = (runDynamics h.dynamics s).1 ∧
      (h.update s).2.1 =
        (List.range (runDynamics h.dynamics s).2).map Inv.dyn ∧
      (h.update s).2.2 = h) := by
  have henq : ∀ (P : PhysicalInput) (v : PhysicalInputValue),
      lookupA h.bindings P = none → enqueueFor h P v = h := by
    intro P v hb
    simp [enqueueFor, hb]
  refine ⟨henq, fun k km rep hb => ⟨henq _ _ hb, henq _ _ hb⟩,
    fun b x y hb => ⟨henq _ _ hb, henq _ _ hb⟩,
    fun ms x y xr yr hb => henq _ _ hb,
    fun b i hb => ⟨henq _ _ hb, henq _ _ hb⟩,
    fun a val i hb => henq _ _ hb, ?_, ?_⟩
  · intro x y hxt hxf hyt hyf
    have hs := mouse_wheel_event_spec h x y
    have hbx : wheelAxisBatch h.bindings x (.MWheelX true) (.MWheelX false) =
        [] := wheelAxisBatch_eq_nil h.bindings x _ _ hxt hxf
    have hby : wheelAxisBatch h.bindings y (.MWheelY true) (.MWheelY false) =
        [] := wheelAxisBatch_eq_nil h.bindings y _ _ hyt hyf
    apply InputHandler.eq_of_fields
    · exact hs.2.1
    · exact hs.2.2.1
    · exact hs.2.2.2
    · rw [hs.1, hbx, hby, List.append_nil, List.append_nil]
  · intro s hq
    obtain ⟨defs, dyns, binds, q⟩ := h
    simp only at hq
    subst hq
    simp only [InputHandler.update]
    rcases hrd : runDynamics dyns s with ⟨res, k⟩
    cases res with
    | error e => exact ⟨rfl, rfl, rfl⟩
    | ok s0 =>
        dsimp only
        exact ⟨rfl, by simp [drainQueue], rfl⟩

/-- C9 (witness): the empty handler, a key with no binding, a wheel event
touching a negative X and a positive Y direction with neither bound, and
an update on the empty queue. -/
theorem unbound_input_is_noop_witness :
    enqueueFor exEmpty exPhys exVal = exEmpty ∧
    exEmpty.key_down_event exKey () false = exEmpty ∧
    exEmpty.mouse_wheel_event (-2) 3 = exEmpty ∧
    (exEmpty.update []).1 = .ok [] ∧
    (exEmpty.update []).2.1 = [] ∧
    (exEmpty.update []).2.2 = exEmpty := by
  have t := unbound_input_is_noop exEmpty
  have u := t.2.2.2.2.2.2.2 [] rfl
  exact ⟨t.1 exPhys exVal rfl, (t.2.1 exKey () false rfl).1,
    t.2.2.2.2.2.2.1 (-2) 3 (fun _ => rfl) (fun _ => rfl) (fun _ => rfl)
      (fun _ => rfl),
    u.1.trans rfl, u.2.1.trans rfl, u.2.2⟩

end Inputty
